import Mathlib

/-!
# Chess-Master session state machine: a shallow embedding

This file embeds the game-session state machine of `src/components/ChessGame.tsx`
(the `GameState` record and its transition callbacks `handleMove`, `undoMove`,
`resetGame`, the timer tick effect, the settings toggles and the
`localStorage` restore initializer) and proves the specified properties
about it.

The external rules engine (`chess.js`) is a black box: it is represented by an
abstract `Rules` structure over an opaque position type, with exactly the
operations the component calls (`move` by from/to with auto-queen promotion,
`move` by SAN string, `turn`, `isCheck`, `isGameOver`, `history`, `loadPgn`).
A `Chess` object value is a position together with the move history it has
accumulated; constructing a new object from a FEN string
(`new Chess(prev.game.fen())`) keeps the position and starts with an empty
history.  Properties of the engine that a theorem needs (e.g. that replaying a
move's SAN from the same position reproduces the move) are explicit
hypotheses, and a small scripted engine instantiates them for concrete runs.

JavaScript numbers holding clock seconds are modelled as `Int` (they are
decremented with `Math.max(0, t - 1)`, so negative intermediate values are
possible in principle and the flooring is semantically relevant).
-/

namespace ChessMaster

/-- The two sides. `chess.js` calls them `'w'` and `'b'`. -/
inductive Side where
  | white
  | black
deriving DecidableEq, Repr

/-- The opposing side. -/
def Side.opp : Side → Side
  | .white => .black
  | .black => .white

/-- A square name such as `"e4"`; the component treats squares as strings. -/
abbrev Square := String

/-- The verbose move object returned by `chess.js`'s `move()` and
`history({verbose: true})`: mover color, SAN notation, origin and target
squares, and the (lower-case) letter of a captured piece when the move is a
capture. -/
structure MoveInfo where
  color : Side
  san : String
  fromSq : Square
  toSq : Square
  captured : Option String
deriving DecidableEq, Repr

/-- Abstract interface of the external rules engine, with the operations
`ChessGame.tsx` invokes on a position. `moveFT` is `move({from, to,
promotion: 'q'})` (auto-queen), returning the verbose move and the successor
position, or `none` when the engine rejects the pair; `moveSan` is `move(san)`
used by the undo replay loop. `pieceAt` returns the owner of the piece on a
square, if any (`game.get(square)`), and `legalDests` is
`moves({square, verbose: true}).map(m => m.to)`. `loadPgn` parses a PGN
string into a position and its replayed history, or fails. -/
structure Rules (Pos : Type) where
  init : Pos
  turn : Pos → Side
  pieceAt : Pos → Square → Option Side
  legalDests : Pos → Square → List Square
  moveFT : Pos → Square → Square → Option (MoveInfo × Pos)
  moveSan : Pos → String → Option (MoveInfo × Pos)
  isCheck : Pos → Bool
  isGameOver : Pos → Bool
  loadPgn : String → Option (Pos × List MoveInfo)

/-- A `chess.js` `Chess` object: a position plus the history of moves the
object itself has executed (what `history({verbose: true})` reports). -/
structure ChessObj (Pos : Type) where
  pos : Pos
  hist : List MoveInfo
deriving DecidableEq, Repr

variable {Pos : Type}

/-- Constructor `new Chess()`: the initial position with empty history. -/
def chessNew (R : Rules Pos) : ChessObj Pos :=
  { pos := R.init, hist := [] }

/-- Constructor `new Chess(g.fen())`: a FEN string round-trips the position but carries no
history, so the clone starts with an empty history. -/
def chessClone (g : ChessObj Pos) : ChessObj Pos :=
  { pos := g.pos, hist := [] }

/-- Method `g.move({from, to, promotion: q})`: on success the object advances to the
successor position and appends the move to its history. -/
def chessMoveFT (R : Rules Pos) (g : ChessObj Pos) (f t : Square) :
    Option (MoveInfo × ChessObj Pos) :=
  match R.moveFT g.pos f t with
  | none => none
  | some (mi, p) => some (mi, { pos := p, hist := g.hist ++ [mi] })

/-- Method `g.move(san)`: same, keyed by SAN string. -/
def chessMoveSan (R : Rules Pos) (g : ChessObj Pos) (san : String) :
    Option (MoveInfo × ChessObj Pos) :=
  match R.moveSan g.pos san with
  | none => none
  | some (mi, p) => some (mi, { pos := p, hist := g.hist ++ [mi] })

/-- The `timeControl` field: seconds remaining per side and the per-move
increment. -/
structure TimeControl where
  white : Int
  black : Int
  increment : Int
deriving DecidableEq, Repr

/-- Constant `initialTimeControl`: ten minutes per side, no increment. -/
def initialTimeControl : TimeControl :=
  { white := 10 * 60, black := 10 * 60, increment := 0 }

/-- The `capturedPieces` field: for each capturing color, the ordered list of
piece-id strings (such as `"bP"`) it has captured. -/
structure CapturedPieces where
  white : List String
  black : List String
deriving DecidableEq, Repr

/-- The `GameState` record of `ChessGame.tsx`. -/
structure GameState (Pos : Type) where
  game : ChessObj Pos
  gameHistory : List String
  capturedPieces : CapturedPieces
  lastMove : Option (Square × Square)
  selectedSquare : Option Square
  legalMoves : List Square
  isFlipped : Bool
  soundEnabled : Bool
  timeControl : TimeControl
  isTimerRunning : Bool
  boardTheme : String
deriving DecidableEq, Repr

/-- The piece-id string recorded for a capture:
`move.color === 'w' ? 'b' + move.captured.toUpperCase() : 'w' + ...`. -/
def capturedId (c : Side) (cap : String) : String :=
  (if c = Side.white then "b" else "w") ++ cap.toUpper

/-- The captured-pieces update both commit and undo perform for one verbose
move: when the move captured a piece, push its piece-id onto the capturing
color's list, otherwise leave the buckets alone. -/
def pushCaptured (cp : CapturedPieces) (mi : MoveInfo) : CapturedPieces :=
  match mi.captured with
  | none => cp
  | some cap =>
    match mi.color with
    | Side.white => { cp with white := cp.white ++ [capturedId Side.white cap] }
    | Side.black => { cp with black := cp.black ++ [capturedId Side.black cap] }

/-- Callback `handleMove(sourceSquare, targetSquare)` — the move-commit transition.
Mirrors the source: clone the game through FEN, attempt the move with
auto-queen promotion, and on rejection return `prev` unchanged; on success
update captured pieces, credit the increment to the mover iff the timer was
running, append the SAN to the history, record `lastMove`, clear the
selection, and stop the timer when the new position is game over. -/
def handleMove (R : Rules Pos) (prev : GameState Pos) (sourceSquare targetSquare : Square) :
    GameState Pos :=
  match chessMoveFT R (chessClone prev.game) sourceSquare targetSquare with
  | none => prev
  | some (move, newGame) =>
    let newCapturedPieces :=
      match move.captured with
      | some cap =>
        match move.color with
        | Side.white =>
          { prev.capturedPieces with
              white := prev.capturedPieces.white ++ [capturedId Side.white cap] }
        | Side.black =>
          { prev.capturedPieces with
              black := prev.capturedPieces.black ++ [capturedId Side.black cap] }
      | none => prev.capturedPieces
    let newTimeControl :=
      if prev.isTimerRunning then
        match move.color with
        | Side.white =>
          { prev.timeControl with
              white := prev.timeControl.white + prev.timeControl.increment }
        | Side.black =>
          { prev.timeControl with
              black := prev.timeControl.black + prev.timeControl.increment }
      else prev.timeControl
    { prev with
        game := newGame
        gameHistory := prev.gameHistory ++ [move.san]
        capturedPieces := newCapturedPieces
        lastMove := some (sourceSquare, targetSquare)
        selectedSquare := none
        legalMoves := []
        timeControl := newTimeControl
        isTimerRunning := prev.isTimerRunning && !(R.isGameOver newGame.pos) }

/-- Callback `resetGame()` — the reset transition.  Unlike every other callback, which
uses the functional `setGameState(prev => ...)` form and therefore reads the
state current at dispatch time, `resetGame` builds the new state from the
`gameState` value captured by its `useCallback` closure.  The closure is
re-created only when an entry of its dependency array
`[gameState.isFlipped, gameState.soundEnabled, saveGameState, toast]`
changes, so the `captured` argument here is the snapshot the memoized
callback closed over, which can lag behind the current state in every field
outside that array (in particular in `boardTheme`). -/
def resetGame (R : Rules Pos) (captured : GameState Pos) : GameState Pos :=
  { game := chessNew R
    gameHistory := []
    capturedPieces := { white := [], black := [] }
    lastMove := none
    selectedSquare := none
    legalMoves := []
    isFlipped := captured.isFlipped
    soundEnabled := captured.soundEnabled
    timeControl := initialTimeControl
    isTimerRunning := false
    boardTheme := captured.boardTheme }

/-- Characterizes when a `useCallback` snapshot of the state can be the one
`resetGame`'s memoized closure holds while `current` is the live state: every
state-derived entry of the dependency array agrees (the other entries,
`saveGameState` and `toast`, are stable function identities). -/
def resetDepsAgree (captured current : GameState Pos) : Prop :=
  captured.isFlipped = current.isFlipped ∧ captured.soundEnabled = current.soundEnabled

/-- The replay loop of `undoMove`: `newHistory.forEach(move => {
newGame.move(move); })` — each SAN is fed to `move()` and the result ignored,
so a rejected SAN leaves the object as it was. -/
def replaySans (R : Rules Pos) (g : ChessObj Pos) : List String → ChessObj Pos
  | [] => g
  | san :: rest =>
    match chessMoveSan R g san with
    | some (_, g2) => replaySans R g2 rest
    | none => replaySans R g rest

/-- The captured-pieces recomputation loop of `undoMove`: fold the
captured-piece push over a verbose history, starting from empty buckets. -/
def recomputeCaptured (hist : List MoveInfo) : CapturedPieces :=
  hist.foldl pushCaptured { white := [], black := [] }

/-- Callback `undoMove()` — the undo transition.  No-op on empty history; otherwise
drop the last SAN, replay the remaining SANs on a fresh `Chess` object,
recompute the captured pieces from that object's verbose history, take
`lastMove` from its last verbose entry (or `null`), and clear the
selection.  The clock fields are left untouched by the record update. -/
def undoMove (R : Rules Pos) (prev : GameState Pos) : GameState Pos :=
  if prev.gameHistory = [] then prev
  else
    let newHistory := prev.gameHistory.dropLast
    let newGame := replaySans R (chessNew R) newHistory
    let newCapturedPieces := recomputeCaptured newGame.hist
    let lastMove :=
      match newGame.hist.getLast? with
      | some mi => some (mi.fromSq, mi.toSq)
      | none => none
    { prev with
        game := newGame
        gameHistory := newHistory
        capturedPieces := newCapturedPieces
        lastMove := lastMove
        selectedSquare := none
        legalMoves := [] }

/-- Callback `flipBoard()`. -/
def flipBoard (prev : GameState Pos) : GameState Pos :=
  { prev with isFlipped := !prev.isFlipped }

/-- Callback `toggleSound()`. -/
def toggleSound (prev : GameState Pos) : GameState Pos :=
  { prev with soundEnabled := !prev.soundEnabled }

/-- Callback `toggleTimer()`. -/
def toggleTimer (prev : GameState Pos) : GameState Pos :=
  { prev with isTimerRunning := !prev.isTimerRunning }

/-- Callback `updateTimeControl(newTimeControl)`. -/
def updateTimeControl (newTimeControl : TimeControl) (prev : GameState Pos) : GameState Pos :=
  { prev with timeControl := newTimeControl }

/-- Callback `updateBoardTheme(theme)`. -/
def updateBoardTheme (theme : String) (prev : GameState Pos) : GameState Pos :=
  { prev with boardTheme := theme }

/-- One firing of the timer interval.  The `useEffect` schedules the interval
only while `gameState.isTimerRunning && !gameState.game.isGameOver()` and
clears it otherwise, so a tick outside that guard does not happen (modelled
as the identity emitting no event).  A scheduled tick decrements the side to
move by one second with `Math.max(0, t - 1)`; when the new value is exactly
`0` it stops the timer and raises the time-expired toast for that side —
returned here as `some side`. -/
def tick (R : Rules Pos) (prev : GameState Pos) : GameState Pos × Option Side :=
  if prev.isTimerRunning && !(R.isGameOver prev.game.pos) then
    match R.turn prev.game.pos with
    | Side.white =>
      let w := max 0 (prev.timeControl.white - 1)
      if w = 0 then
        ({ prev with
            timeControl := { prev.timeControl with white := w }
            isTimerRunning := false }, some Side.white)
      else
        ({ prev with timeControl := { prev.timeControl with white := w } }, none)
    | Side.black =>
      let b := max 0 (prev.timeControl.black - 1)
      if b = 0 then
        ({ prev with
            timeControl := { prev.timeControl with black := b }
            isTimerRunning := false }, some Side.black)
      else
        ({ prev with timeControl := { prev.timeControl with black := b } }, none)
  else (prev, none)

/-- The shape of a successfully parsed `localStorage` record.  Fields the
initializer defaults when absent (`parsed.isFlipped || false`,
`parsed.soundEnabled !== false`, `parsed.timeControl || initialTimeControl`,
`parsed.boardTheme || 'classic'`) are optional. -/
structure SavedData where
  pgn : String
  gameHistory : List String
  capturedPieces : CapturedPieces
  lastMove : Option (Square × Square)
  isFlipped : Option Bool
  soundEnabled : Option Bool
  timeControl : Option TimeControl
  boardTheme : Option String

/-- The fresh session the initializer falls back to: empty history, empty
buckets, defaults for the flags and theme, full clocks, timer stopped. -/
def initialGameState (R : Rules Pos) : GameState Pos :=
  { game := chessNew R
    gameHistory := []
    capturedPieces := { white := [], black := [] }
    lastMove := none
    selectedSquare := none
    legalMoves := []
    isFlipped := false
    soundEnabled := true
    timeControl := initialTimeControl
    isTimerRunning := false
    boardTheme := "classic" }

/-- The `useState` initializer: read the stored string (if any), parse it as
JSON, load its PGN, and restore; any failure along the way (the `catch`
around `JSON.parse` and `loadPgn`) falls back to the fresh session.
`parseJson` stands for `JSON.parse` followed by the field accesses, returning
`none` when the string is not valid JSON. -/
def loadGameState (R : Rules Pos) (parseJson : String → Option SavedData)
    (savedGame : Option String) : GameState Pos :=
  match savedGame with
  | none => initialGameState R
  | some str =>
    match parseJson str with
    | none => initialGameState R
    | some parsed =>
      match R.loadPgn parsed.pgn with
      | none => initialGameState R
      | some (pos, hist) =>
        { game := { pos := pos, hist := hist }
          gameHistory := parsed.gameHistory
          capturedPieces := parsed.capturedPieces
          lastMove := parsed.lastMove
          selectedSquare := none
          legalMoves := []
          isFlipped := parsed.isFlipped.getD false
          soundEnabled := parsed.soundEnabled.getD true
          timeControl := parsed.timeControl.getD initialTimeControl
          isTimerRunning := false
          boardTheme := parsed.boardTheme.getD "classic" }

/-- Apply `handleMove` for each from/to pair of a list in order (a sequence of
drop intents driven through the commit transition). -/
def runTrace (R : Rules Pos) (s : GameState Pos) : List (Square × Square) → GameState Pos
  | [] => s
  | (f, t) :: rest => runTrace R (handleMove R s f t) rest

/-- The verbose move records the engine produces along a trace: the record of
each pair the engine accepts, in order (rejected pairs contribute nothing,
matching the `if (!move) return prev` early exit). -/
def traceRecords (R : Rules Pos) (s : GameState Pos) : List (Square × Square) → List MoveInfo
  | [] => []
  | (f, t) :: rest =>
    match R.moveFT s.game.pos f t with
    | none => traceRecords R (handleMove R s f t) rest
    | some (mi, _) => mi :: traceRecords R (handleMove R s f t) rest

/-- Remaining seconds of a side in a `timeControl` value. -/
def TimeControl.timeOf (tc : TimeControl) : Side → Int
  | Side.white => tc.white
  | Side.black => tc.black

/-! ### A miniature scripted rules engine

Concrete witnesses need an executable instance of the abstract engine.  The
scripted engine fixes one line of play: a position is the list of moves
played so far, and at ply `n` the engine accepts exactly the `n`-th scripted
move (by its from/to pair, or by its SAN), rejecting everything else.  The
game is over when the script is exhausted. -/

/-- Side to move at a scripted position: White at even ply. -/
def scriptTurn (p : List MoveInfo) : Side :=
  if p.length % 2 = 0 then Side.white else Side.black

/-- Scripted `moveFT`: accept the next scripted move when the from/to pair
matches. -/
def scriptMoveFT (script p : List MoveInfo) (f t : Square) :
    Option (MoveInfo × List MoveInfo) :=
  match script[p.length]? with
  | none => none
  | some mi => if f = mi.fromSq ∧ t = mi.toSq then some (mi, p ++ [mi]) else none

/-- Scripted `moveSan`: accept the next scripted move when the SAN matches. -/
def scriptMoveSan (script p : List MoveInfo) (san : String) :
    Option (MoveInfo × List MoveInfo) :=
  match script[p.length]? with
  | none => none
  | some mi => if san = mi.san then some (mi, p ++ [mi]) else none

/-- Scripted `pieceAt`: the side to move owns a piece on the next scripted
move's origin square; every other square is empty. -/
def scriptPieceAt (script p : List MoveInfo) (sq : Square) : Option Side :=
  match script[p.length]? with
  | none => none
  | some mi => if sq = mi.fromSq then some (scriptTurn p) else none

/-- Scripted `legalDests`: from the next scripted move's origin, exactly its
target. -/
def scriptLegalDests (script p : List MoveInfo) (sq : Square) : List Square :=
  match script[p.length]? with
  | none => []
  | some mi => if sq = mi.fromSq then [mi.toSq] else []

/-- The scripted engine for a given script. -/
def scriptedRules (script : List MoveInfo) : Rules (List MoveInfo) where
  init := []
  turn := scriptTurn
  pieceAt := scriptPieceAt script
  legalDests := scriptLegalDests script
  moveFT := scriptMoveFT script
  moveSan := scriptMoveSan script
  isCheck _ := false
  isGameOver p := (script[p.length]?).isNone
  loadPgn _ := none

/-- The clock credit a committed move applies to the mover's side (the
increment branch of `handleMove`). -/
def creditIncrement (tc : TimeControl) : Side → TimeControl
  | Side.white => { tc with white := tc.white + tc.increment }
  | Side.black => { tc with black := tc.black + tc.increment }

/-- Predicate `RecChain R p recs p2`: the records `recs` arise from successively
accepted from/to moves leading from position `p` to position `p2` — the
shape of the verbose records a session accumulates. -/
inductive RecChain (R : Rules Pos) : Pos → List MoveInfo → Pos → Prop where
  | nil (p : Pos) : RecChain R p [] p
  | cons {p p2 p3 : Pos} {mi : MoveInfo} {rest : List MoveInfo} (f t : Square)
      (h : R.moveFT p f t = some (mi, p2)) (hrest : RecChain R p2 rest p3) :
      RecChain R p (mi :: rest) p3

/-! Concrete data for evaluating the development: a three-ply scripted game
`1. e4 d5 2. exd5` whose third move captures a pawn, an engine scripted to a
single move, and some concrete sessions. -/

/-- White plays e2–e4. -/
def mv1 : MoveInfo :=
  { color := Side.white, san := "e4", fromSq := "e2", toSq := "e4", captured := none }

/-- Black plays d7–d5. -/
def mv2 : MoveInfo :=
  { color := Side.black, san := "d5", fromSq := "d7", toSq := "d5", captured := none }

/-- White captures on d5. -/
def mv3 : MoveInfo :=
  { color := Side.white, san := "exd5", fromSq := "e4", toSq := "d5", captured := some "p" }

/-- The three-ply script. -/
def testScript : List MoveInfo := [mv1, mv2, mv3]

/-- The scripted engine over the three-ply script. -/
def testRules : Rules (List MoveInfo) := scriptedRules testScript

/-- The from/to intents realizing the three-ply script. -/
def testTrace : List (Square × Square) := [("e2", "e4"), ("d7", "d5"), ("e4", "d5")]

/-- An engine scripted to a single move: after it, the game is over and every
further move is rejected. -/
def oneMoveRules : Rules (List MoveInfo) := scriptedRules [mv1]

/-- A session on the three-ply engine with the clock running, White at 598
seconds and a five-second increment. -/
def runningState : GameState (List MoveInfo) :=
  { initialGameState testRules with
      timeControl := { white := 598, black := 300, increment := 5 }
      isTimerRunning := true }

/-- The same session with the clock stopped. -/
def stoppedState : GameState (List MoveInfo) :=
  { runningState with isTimerRunning := false }

/-- A running session with White to move at one remaining second. -/
def oneSecondState : GameState (List MoveInfo) :=
  { initialGameState testRules with
      timeControl := { white := 1, black := 42, increment := 0 }
      isTimerRunning := true }

/-- The scripted engine satisfies SAN coherence: replaying the SAN of a move
the engine just produced, from the same position, reproduces the move and
the successor position. -/
theorem scripted_san_coherent (script : List MoveInfo) :
    ∀ p f t mi p2, (scriptedRules script).moveFT p f t = some (mi, p2) →
      (scriptedRules script).moveSan p mi.san = some (mi, p2) := by
  intro p f t mi p2 h
  show scriptMoveSan script p mi.san = some (mi, p2)
  have h2 : scriptMoveFT script p f t = some (mi, p2) := h
  unfold scriptMoveFT at h2
  unfold scriptMoveSan
  split at h2
  · cases h2
  next m hs =>
    split at h2
    · have h3 := Option.some.inj h2
      have h4 : m = mi := congrArg Prod.fst h3
      have h5 : p ++ [m] = p2 := congrArg Prod.snd h3
      subst h4
      subst h5
      simp
    · cases h2

/-- A rejected from/to pair makes `handleMove` return `prev` itself. -/
theorem handleMove_failure (R : Rules Pos) (s : GameState Pos) {f t : Square}
    (h : R.moveFT s.game.pos f t = none) :
    handleMove R s f t = s := by
  unfold handleMove chessMoveFT chessClone
  simp [h]

/-- Closed form of a successful `handleMove`: the cloned game holds exactly
the new move, the SAN is appended, the capture is pushed, the mover is
credited iff the timer was running, and the timer keeps running iff the new
position is not game over. -/
theorem handleMove_success (R : Rules Pos) (s : GameState Pos) {f t : Square}
    {mi : MoveInfo} {p2 : Pos}
    (h : R.moveFT s.game.pos f t = some (mi, p2)) :
    handleMove R s f t =
      { s with
          game := { pos := p2, hist := [mi] }
          gameHistory := s.gameHistory ++ [mi.san]
          capturedPieces := pushCaptured s.capturedPieces mi
          lastMove := some (f, t)
          selectedSquare := none
          legalMoves := []
          timeControl :=
            if s.isTimerRunning then creditIncrement s.timeControl mi.color
            else s.timeControl
          isTimerRunning := s.isTimerRunning && !(R.isGameOver p2) } := by
  unfold handleMove chessMoveFT chessClone
  rcases hc : mi.captured with _ | cap <;> rcases hcol : mi.color with _ | _ <;>
    rcases hrun : s.isTimerRunning with _ | _ <;>
      simp [h, hc, hcol, hrun, pushCaptured, creditIncrement]

/-- The records of a trace form a from/to chain from the starting position of
the trace to its final position. -/
theorem traceRecords_chain (R : Rules Pos) :
    ∀ (tr : List (Square × Square)) (s : GameState Pos),
      RecChain R s.game.pos (traceRecords R s tr) (runTrace R s tr).game.pos := by
  intro tr
  induction tr with
  | nil => intro s; exact RecChain.nil _
  | cons ft rest ih =>
    intro s
    obtain ⟨f, t⟩ := ft
    rcases hm : R.moveFT s.game.pos f t with _ | ⟨mi, p2⟩
    · have h1 : traceRecords R s ((f, t) :: rest) = traceRecords R (handleMove R s f t) rest := by
        simp [traceRecords, hm]
      have h2 : runTrace R s ((f, t) :: rest) = runTrace R (handleMove R s f t) rest := rfl
      rw [h1, h2, handleMove_failure R s hm]
      exact ih s
    · have h1 : traceRecords R s ((f, t) :: rest) =
          mi :: traceRecords R (handleMove R s f t) rest := by
        simp [traceRecords, hm]
      have h2 : runTrace R s ((f, t) :: rest) = runTrace R (handleMove R s f t) rest := rfl
      rw [h1, h2]
      refine RecChain.cons f t hm ?_
      have h3 := ih (handleMove R s f t)
      have hpos : (handleMove R s f t).game.pos = p2 := by
        rw [handleMove_success R s hm]
      rw [hpos] at h3
      exact h3

/-- Along a trace, the session's SAN history grows by exactly the SANs of the
accepted records, in order. -/
theorem runTrace_gameHistory (R : Rules Pos) :
    ∀ (tr : List (Square × Square)) (s : GameState Pos),
      (runTrace R s tr).gameHistory =
        s.gameHistory ++ (traceRecords R s tr).map (fun mi => mi.san) := by
  intro tr
  induction tr with
  | nil => intro s; simp [runTrace, traceRecords]
  | cons ft rest ih =>
    intro s
    obtain ⟨f, t⟩ := ft
    rcases hm : R.moveFT s.game.pos f t with _ | ⟨mi, p2⟩
    · have h1 : traceRecords R s ((f, t) :: rest) = traceRecords R (handleMove R s f t) rest := by
        simp [traceRecords, hm]
      have h2 : runTrace R s ((f, t) :: rest) = runTrace R (handleMove R s f t) rest := rfl
      rw [h1, h2, handleMove_failure R s hm]
      exact ih s
    · have h1 : traceRecords R s ((f, t) :: rest) =
          mi :: traceRecords R (handleMove R s f t) rest := by
        simp [traceRecords, hm]
      have h2 : runTrace R s ((f, t) :: rest) = runTrace R (handleMove R s f t) rest := rfl
      rw [h1, h2, ih, handleMove_success R s hm]
      simp

/-- Along a trace, the session's captured-pieces buckets are the fold of the
per-move push over the accepted records — the incremental derivation. -/
theorem runTrace_captured (R : Rules Pos) :
    ∀ (tr : List (Square × Square)) (s : GameState Pos),
      (runTrace R s tr).capturedPieces =
        (traceRecords R s tr).foldl pushCaptured s.capturedPieces := by
  intro tr
  induction tr with
  | nil => intro s; simp [runTrace, traceRecords]
  | cons ft rest ih =>
    intro s
    obtain ⟨f, t⟩ := ft
    rcases hm : R.moveFT s.game.pos f t with _ | ⟨mi, p2⟩
    · have h1 : traceRecords R s ((f, t) :: rest) = traceRecords R (handleMove R s f t) rest := by
        simp [traceRecords, hm]
      have h2 : runTrace R s ((f, t) :: rest) = runTrace R (handleMove R s f t) rest := rfl
      rw [h1, h2, handleMove_failure R s hm]
      exact ih s
    · have h1 : traceRecords R s ((f, t) :: rest) =
          mi :: traceRecords R (handleMove R s f t) rest := by
        simp [traceRecords, hm]
      have h2 : runTrace R s ((f, t) :: rest) = runTrace R (handleMove R s f t) rest := rfl
      rw [h1, h2, ih, List.foldl_cons, handleMove_success R s hm]

/-- Replaying the SANs of a from/to chain on an object standing at the chain's
start reaches the chain's end and appends exactly the chain's records to the
object's history (SAN-coherent engine). -/
theorem replaySans_chain (R : Rules Pos)
    (hsan : ∀ p f t mi p2, R.moveFT p f t = some (mi, p2) → R.moveSan p mi.san = some (mi, p2)) :
    ∀ {recs : List MoveInfo} {p p2 : Pos}, RecChain R p recs p2 →
      ∀ g : ChessObj Pos, g.pos = p →
        replaySans R g (recs.map (fun mi => mi.san)) = { pos := p2, hist := g.hist ++ recs } := by
  intro recs p p2 hchain
  induction hchain with
  | nil q =>
    intro g hg
    cases g with
    | mk gp gh =>
      have hg2 : gp = q := hg
      subst hg2
      simp [replaySans]
  | cons f t h hrest ih =>
    intro g hg
    have hsan2 := hsan _ f t _ _ h
    rw [← hg] at hsan2
    simp only [List.map_cons, replaySans, chessMoveSan, hsan2]
    rw [ih _ rfl]
    simp

/-- Dropping the last record of a chain leaves a chain from the same start. -/
theorem chain_dropLast (R : Rules Pos) :
    ∀ (recs : List MoveInfo) (p p2 : Pos), RecChain R p recs p2 →
      ∃ p3, RecChain R p recs.dropLast p3 := by
  intro recs
  induction recs with
  | nil => intro p p2 _; exact ⟨p, RecChain.nil p⟩
  | cons mi rest ih =>
    intro p p2 h
    cases h with
    | cons f t hmv hrest =>
      cases rest with
      | nil => exact ⟨p, RecChain.nil p⟩
      | cons mi2 rest2 =>
        obtain ⟨p3, hc⟩ := ih _ _ hrest
        exact ⟨p3, by simpa [List.dropLast] using RecChain.cons f t hmv hc⟩

/-- White's bucket after the captured-pieces fold: the starting bucket
followed by the capture ids of White's capturing records, in order. -/
theorem foldl_pushCaptured_white (l : List MoveInfo) :
    ∀ cp : CapturedPieces,
      (l.foldl pushCaptured cp).white =
        cp.white ++ l.filterMap
          (fun mi => if mi.color = Side.white then mi.captured.map (capturedId Side.white)
                     else none) := by
  induction l with
  | nil => intro cp; simp
  | cons mi rest ih =>
    intro cp
    rw [List.foldl_cons, List.filterMap_cons]
    rcases hc : mi.captured with _ | cap <;> rcases hcol : mi.color with _ | _ <;>
      simp [pushCaptured, hc, hcol, ih, List.append_assoc]

/-- Black's bucket after the captured-pieces fold. -/
theorem foldl_pushCaptured_black (l : List MoveInfo) :
    ∀ cp : CapturedPieces,
      (l.foldl pushCaptured cp).black =
        cp.black ++ l.filterMap
          (fun mi => if mi.color = Side.black then mi.captured.map (capturedId Side.black)
                     else none) := by
  induction l with
  | nil => intro cp; simp
  | cons mi rest ih =>
    intro cp
    rw [List.foldl_cons, List.filterMap_cons]
    rcases hc : mi.captured with _ | cap <;> rcases hcol : mi.color with _ | _ <;>
      simp [pushCaptured, hc, hcol, ih, List.append_assoc]

/-- A tick outside the RUNNING state changes nothing and emits nothing (the
interval is not scheduled). -/
theorem tick_not_running (R : Rules Pos) (s : GameState Pos) (h : s.isTimerRunning = false) :
    tick R s = (s, none) := by
  unfold tick
  rw [h]
  simp

/-- Closed form of a scheduled tick with White to move. -/
theorem tick_white_closed (R : Rules Pos) (s : GameState Pos)
    (hrun : s.isTimerRunning = true) (hgo : R.isGameOver s.game.pos = false)
    (hside : R.turn s.game.pos = Side.white) :
    tick R s =
      (if max 0 (s.timeControl.white - 1) = 0 then
        ({ s with
            timeControl := { s.timeControl with white := max 0 (s.timeControl.white - 1) }
            isTimerRunning := false }, some Side.white)
      else
        ({ s with
            timeControl := { s.timeControl with white := max 0 (s.timeControl.white - 1) } },
          none)) := by
  unfold tick
  rw [hrun, hgo, hside]
  simp

/-- Closed form of a scheduled tick with Black to move. -/
theorem tick_black_closed (R : Rules Pos) (s : GameState Pos)
    (hrun : s.isTimerRunning = true) (hgo : R.isGameOver s.game.pos = false)
    (hside : R.turn s.game.pos = Side.black) :
    tick R s =
      (if max 0 (s.timeControl.black - 1) = 0 then
        ({ s with
            timeControl := { s.timeControl with black := max 0 (s.timeControl.black - 1) }
            isTimerRunning := false }, some Side.black)
      else
        ({ s with
            timeControl := { s.timeControl with black := max 0 (s.timeControl.black - 1) } },
          none)) := by
  unfold tick
  rw [hrun, hgo, hside]
  simp

/-- Claim C4: a scheduled tick decrements the side to move by exactly one
second floored at zero (hence never negative) and leaves the other side
alone; when the remaining time lands on exactly zero the clock stops, the
time-expired event for that side is emitted, and the next tick is suppressed
(no further state change, no second event); otherwise the clock keeps
running and no event is emitted. -/
theorem tick_spec (R : Rules Pos) (s : GameState Pos) (side : Side)
    (hrun : s.isTimerRunning = true)
    (hgo : R.isGameOver s.game.pos = false)
    (hside : R.turn s.game.pos = side) :
    (tick R s).1.timeControl.timeOf side = max 0 (s.timeControl.timeOf side - 1) ∧
    (tick R s).1.timeControl.timeOf side.opp = s.timeControl.timeOf side.opp ∧
    0 ≤ (tick R s).1.timeControl.timeOf side ∧
    ((tick R s).1.timeControl.timeOf side = 0 →
      (tick R s).1.isTimerRunning = false ∧
      (tick R s).2 = some side ∧
      tick R (tick R s).1 = ((tick R s).1, none)) ∧
    ((tick R s).1.timeControl.timeOf side ≠ 0 →
      (tick R s).1.isTimerRunning = true ∧ (tick R s).2 = none) := by
  cases side with
  | white =>
    rw [tick_white_closed R s hrun hgo hside]
    by_cases hz : max 0 (s.timeControl.white - 1) = 0
    · rw [if_pos hz]
      exact ⟨rfl, rfl, le_max_left 0 _,
        fun _ => ⟨rfl, rfl, tick_not_running R _ rfl⟩,
        fun hne => absurd hz hne⟩
    · rw [if_neg hz]
      exact ⟨rfl, rfl, le_max_left 0 _, fun h0 => absurd h0 hz, fun _ => ⟨hrun, rfl⟩⟩
  | black =>
    rw [tick_black_closed R s hrun hgo hside]
    by_cases hz : max 0 (s.timeControl.black - 1) = 0
    · rw [if_pos hz]
      exact ⟨rfl, rfl, le_max_left 0 _,
        fun _ => ⟨rfl, rfl, tick_not_running R _ rfl⟩,
        fun hne => absurd hz hne⟩
    · rw [if_neg hz]
      exact ⟨rfl, rfl, le_max_left 0 _, fun h0 => absurd h0 hz, fun _ => ⟨hrun, rfl⟩⟩

theorem tick_spec_witness :
    (tick testRules oneSecondState).1.timeControl.white = 0 ∧
    (tick testRules oneSecondState).1.timeControl.black = 42 ∧
    (tick testRules oneSecondState).1.isTimerRunning = false ∧
    (tick testRules oneSecondState).2 = some Side.white ∧
    tick testRules (tick testRules oneSecondState).1 =
      ((tick testRules oneSecondState).1, none) := by
  have h := tick_spec testRules oneSecondState Side.white rfl (by decide) rfl
  have h0 : (tick testRules oneSecondState).1.timeControl.timeOf Side.white = 0 := by decide
  obtain ⟨h1, h2, h3, h4, h5⟩ := h
  obtain ⟨ha, hb, hc⟩ := h4 h0
  exact ⟨by decide, by decide, ha, hb, hc⟩

/-- Mapping commutes with dropping the last element. -/
theorem map_dropLast_eq {α β : Type} (f : α → β) :
    ∀ l : List α, (l.map f).dropLast = l.dropLast.map f := by
  intro l
  induction l with
  | nil => rfl
  | cons a rest ih =>
    cases rest with
    | nil => rfl
    | cons b rest2 =>
      simp only [List.map_cons] at ih ⊢
      rw [List.dropLast_cons₂, List.dropLast_cons₂, List.map_cons, ih]

/-- Closed form of `undoMove` on a non-empty history: drop the last SAN,
replay the rest on a fresh object, recompute the buckets and `lastMove` from
the replayed history, clear the selection, keep everything else. -/
theorem undoMove_nonempty (R : Rules Pos) (s : GameState Pos) (h : ¬ s.gameHistory = []) :
    undoMove R s =
      { s with
          game := replaySans R (chessNew R) s.gameHistory.dropLast
          gameHistory := s.gameHistory.dropLast
          capturedPieces :=
            recomputeCaptured (replaySans R (chessNew R) s.gameHistory.dropLast).hist
          lastMove :=
            ((replaySans R (chessNew R) s.gameHistory.dropLast).hist.getLast?).map
              (fun mi => (mi.fromSq, mi.toSq))
          selectedSquare := none
          legalMoves := [] } := by
  unfold undoMove
  rw [if_neg h]
  rcases hl : (replaySans R (chessNew R) s.gameHistory.dropLast).hist.getLast? with _ | mi <;>
    simp [hl]

/-- Claim C3: on a session built up by committed moves, `undoMove` removes
the most recent record and reconstructs the game by replaying the remaining
records' SANs from the initial position — the replayed object's verbose
history is exactly the remaining records and its position is the chain
position they reach from `init` — while the buckets are recomputed from that
replay, `lastMove` becomes the new last record's from/to (or dies with the
history), the selection is cleared; and on any session with empty history
`undoMove` is the identity. -/
theorem undoMove_reconstructs (R : Rules Pos)
    (hsan : ∀ p f t mi p2, R.moveFT p f t = some (mi, p2) → R.moveSan p mi.san = some (mi, p2))
    (tr : List (Square × Square)) :
    (∀ s0 : GameState Pos, s0.gameHistory = [] → undoMove R s0 = s0) ∧
    (traceRecords R (initialGameState R) tr ≠ [] →
      (undoMove R (runTrace R (initialGameState R) tr)).gameHistory =
        ((traceRecords R (initialGameState R) tr).dropLast).map (fun mi => mi.san) ∧
      (undoMove R (runTrace R (initialGameState R) tr)).game.hist =
        (traceRecords R (initialGameState R) tr).dropLast ∧
      RecChain R R.init ((traceRecords R (initialGameState R) tr).dropLast)
        (undoMove R (runTrace R (initialGameState R) tr)).game.pos ∧
      (undoMove R (runTrace R (initialGameState R) tr)).capturedPieces =
        recomputeCaptured ((traceRecords R (initialGameState R) tr).dropLast) ∧
      (undoMove R (runTrace R (initialGameState R) tr)).lastMove =
        (((traceRecords R (initialGameState R) tr).dropLast).getLast?).map
          (fun mi => (mi.fromSq, mi.toSq)) ∧
      (undoMove R (runTrace R (initialGameState R) tr)).selectedSquare = none ∧
      (undoMove R (runTrace R (initialGameState R) tr)).legalMoves = []) := by
  constructor
  · intro s0 h0
    unfold undoMove
    rw [if_pos h0]
  · intro hne
    have hhist : (runTrace R (initialGameState R) tr).gameHistory =
        (traceRecords R (initialGameState R) tr).map (fun mi => mi.san) := by
      rw [runTrace_gameHistory]
      rfl
    have hne2 : ¬ (runTrace R (initialGameState R) tr).gameHistory = [] := by
      rw [hhist]
      simp [hne]
    have hchain := traceRecords_chain R tr (initialGameState R)
    obtain ⟨pmid, hdrop⟩ := chain_dropLast R _ _ _ hchain
    have hrepl := replaySans_chain R hsan hdrop (chessNew R) rfl
    simp only [chessNew, List.nil_append] at hrepl
    have hdl : (runTrace R (initialGameState R) tr).gameHistory.dropLast =
        ((traceRecords R (initialGameState R) tr).dropLast).map (fun mi => mi.san) := by
      rw [hhist, map_dropLast_eq]
    have hobj : replaySans R (chessNew R)
        (runTrace R (initialGameState R) tr).gameHistory.dropLast =
        { pos := pmid, hist := (traceRecords R (initialGameState R) tr).dropLast } := by
      rw [hdl]
      exact hrepl
    rw [undoMove_nonempty R _ hne2]
    refine ⟨hdl, ?_, ?_, ?_, ?_, rfl, rfl⟩
    · rw [hobj]
    · rw [hobj]
      exact hdrop
    · rw [hobj]
    · rw [hobj]

theorem undoMove_reconstructs_witness :
    undoMove testRules (initialGameState testRules) = initialGameState testRules ∧
    (undoMove testRules (runTrace testRules (initialGameState testRules) testTrace)).gameHistory =
      ["e4", "d5"] ∧
    (undoMove testRules (runTrace testRules (initialGameState testRules) testTrace)).game.hist =
      [mv1, mv2] ∧
    (undoMove testRules
        (runTrace testRules (initialGameState testRules) testTrace)).capturedPieces =
      recomputeCaptured [mv1, mv2] ∧
    (undoMove testRules (runTrace testRules (initialGameState testRules) testTrace)).lastMove =
      some ("d7", "d5") ∧
    (undoMove testRules
        (runTrace testRules (initialGameState testRules) testTrace)).selectedSquare = none := by
  have h := undoMove_reconstructs testRules (scripted_san_coherent testScript) testTrace
  have hrec : traceRecords testRules (initialGameState testRules) testTrace =
      [mv1, mv2, mv3] := by decide
  have hne : traceRecords testRules (initialGameState testRules) testTrace ≠ [] := by
    rw [hrec]; simp
  obtain ⟨hempty, hfull⟩ := h
  obtain ⟨h1, h2, h3, h4, h5, h6, h7⟩ := hfull hne
  refine ⟨hempty (initialGameState testRules) rfl, ?_, ?_, ?_, ?_, h6⟩
  · rw [h1, hrec]; decide
  · rw [h2, hrec]; decide
  · rw [h4, hrec]; decide
  · rw [h5, hrec]; decide

/-- Claim C7: along any sequence of committed moves from a fresh session, the
incrementally maintained buckets equal the recomputation (the undo loop's
fold) over the accepted records; the undo-style SAN replay of those records
from the initial position reproduces exactly the records; and each bucket is
precisely the ordered multiset of `captured` fields of the records made by
its capturing side (White's bucket holds the captured pieces of Black — the
opposing side — and vice versa). -/
theorem captured_incremental_eq_replay (R : Rules Pos)
    (hsan : ∀ p f t mi p2, R.moveFT p f t = some (mi, p2) → R.moveSan p mi.san = some (mi, p2))
    (tr : List (Square × Square)) :
    (runTrace R (initialGameState R) tr).capturedPieces =
      recomputeCaptured (traceRecords R (initialGameState R) tr) ∧
    (replaySans R (chessNew R)
        ((traceRecords R (initialGameState R) tr).map (fun mi => mi.san))).hist =
      traceRecords R (initialGameState R) tr ∧
    (recomputeCaptured (traceRecords R (initialGameState R) tr)).white =
      (traceRecords R (initialGameState R) tr).filterMap
        (fun mi => if mi.color = Side.white then mi.captured.map (capturedId Side.white)
                   else none) ∧
    (recomputeCaptured (traceRecords R (initialGameState R) tr)).black =
      (traceRecords R (initialGameState R) tr).filterMap
        (fun mi => if mi.color = Side.black then mi.captured.map (capturedId Side.black)
                   else none) := by
  refine ⟨?_, ?_, ?_, ?_⟩
  · rw [runTrace_captured]
    rfl
  · have hchain := traceRecords_chain R tr (initialGameState R)
    have hrepl := replaySans_chain R hsan hchain (chessNew R) rfl
    rw [hrepl]
    rfl
  · have h := foldl_pushCaptured_white (traceRecords R (initialGameState R) tr)
      { white := [], black := [] }
    simpa [recomputeCaptured] using h
  · have h := foldl_pushCaptured_black (traceRecords R (initialGameState R) tr)
      { white := [], black := [] }
    simpa [recomputeCaptured] using h

theorem captured_incremental_eq_replay_witness :
    traceRecords testRules (initialGameState testRules) testTrace = [mv1, mv2, mv3] ∧
    (runTrace testRules (initialGameState testRules) testTrace).capturedPieces =
      recomputeCaptured [mv1, mv2, mv3] ∧
    (runTrace testRules (initialGameState testRules) testTrace).capturedPieces =
      { white := [capturedId Side.white "p"], black := [] } ∧
    (replaySans testRules (chessNew testRules)
        ((traceRecords testRules (initialGameState testRules) testTrace).map
          (fun mi => mi.san))).hist =
      traceRecords testRules (initialGameState testRules) testTrace := by
  have h := captured_incremental_eq_replay testRules (scripted_san_coherent testScript) testTrace
  have hrec : traceRecords testRules (initialGameState testRules) testTrace =
      [mv1, mv2, mv3] := by decide
  refine ⟨hrec, ?_, ?_, h.2.1⟩
  · rw [h.1, hrec]
  · rw [h.1, hrec]
    rfl

/-- Claim C2: when `from` holds no piece of the side to move, or `to` is not
one of its legal destinations, or the engine rejects the pair, `handleMove`
returns the previous Session itself — no field modified, no partial state.
The coherence hypothesis says an accepted engine move implies ownership and
legal destination (so the three failure modes all surface as a rejected
`move()` call, which is what the component checks). -/
theorem handleMove_illegal_noop (R : Rules Pos) (s : GameState Pos) (f t : Square)
    (hcoh : ∀ mi p2, R.moveFT s.game.pos f t = some (mi, p2) →
      R.pieceAt s.game.pos f = some (R.turn s.game.pos) ∧ t ∈ R.legalDests s.game.pos f)
    (hbad : R.pieceAt s.game.pos f ≠ some (R.turn s.game.pos) ∨
            t ∉ R.legalDests s.game.pos f ∨ R.moveFT s.game.pos f t = none) :
    handleMove R s f t = s := by
  have hnone : R.moveFT s.game.pos f t = none := by
    rcases hmv : R.moveFT s.game.pos f t with _ | ⟨mi, p2⟩
    · rfl
    · obtain ⟨h1, h2⟩ := hcoh mi p2 hmv
      rcases hbad with h | h | h
      · exact absurd h1 h
      · exact absurd h2 h
      · rw [hmv] at h; cases h
  exact handleMove_failure R s hnone

theorem handleMove_illegal_noop_witness :
    testRules.pieceAt (initialGameState testRules).game.pos "a1" ≠
      some (testRules.turn (initialGameState testRules).game.pos) ∧
    testRules.moveFT (initialGameState testRules).game.pos "a1" "a2" = none ∧
    handleMove testRules (initialGameState testRules) "a1" "a2" = initialGameState testRules :=
  ⟨by decide, by decide,
    handleMove_illegal_noop testRules (initialGameState testRules) "a1" "a2"
      (fun mi p2 h => by
        have hn : testRules.moveFT (initialGameState testRules).game.pos "a1" "a2" = none := by
          decide
        rw [hn] at h
        cases h)
      (Or.inr (Or.inr (by decide)))⟩

/-- Claim C5: a committed move credits the configured increment to the
mover's remaining time iff the timer was running at the instant of the move;
the opponent's time and the configured increment are untouched. -/
theorem increment_iff_running (R : Rules Pos) (s : GameState Pos) (f t : Square)
    (mi : MoveInfo) (p2 : Pos) (hmv : R.moveFT s.game.pos f t = some (mi, p2)) :
    (handleMove R s f t).timeControl.timeOf mi.color =
      s.timeControl.timeOf mi.color +
        (if s.isTimerRunning then s.timeControl.increment else 0) ∧
    (handleMove R s f t).timeControl.timeOf mi.color.opp =
      s.timeControl.timeOf mi.color.opp ∧
    (handleMove R s f t).timeControl.increment = s.timeControl.increment := by
  rw [handleMove_success R s hmv]
  rcases hcol : mi.color with _ | _ <;> rcases hrun : s.isTimerRunning with _ | _ <;>
    simp [creditIncrement, TimeControl.timeOf, Side.opp, hcol, hrun]

theorem increment_iff_running_witness :
    runningState.isTimerRunning = true ∧
    runningState.timeControl.white = 598 ∧
    runningState.timeControl.increment = 5 ∧
    (handleMove testRules runningState "e2" "e4").timeControl.white = 603 ∧
    stoppedState.isTimerRunning = false ∧
    (handleMove testRules stoppedState "e2" "e4").timeControl.white = 598 := by
  have hrun := increment_iff_running testRules runningState "e2" "e4" mv1 [mv1] (by decide)
  have hstop := increment_iff_running testRules stoppedState "e2" "e4" mv1 [mv1] (by decide)
  refine ⟨rfl, rfl, rfl, ?_, rfl, ?_⟩
  · have h1 := hrun.1
    simp only [mv1, TimeControl.timeOf] at h1
    rw [h1]; decide
  · have h1 := hstop.1
    simp only [mv1, TimeControl.timeOf] at h1
    rw [h1]; decide

/-- Claim C6: when a committed move yields a game-over position the commit
forces the timer off, and — for an engine that rejects every move in a
game-over position — every later move attempt returns the finished Session
itself. -/
theorem gameOver_stops_clock (R : Rules Pos) (s : GameState Pos) (f t : Square)
    (mi : MoveInfo) (p2 : Pos)
    (hmv : R.moveFT s.game.pos f t = some (mi, p2))
    (hgo : R.isGameOver p2 = true)
    (hrej : ∀ f2 t2, R.moveFT p2 f2 t2 = none) :
    (handleMove R s f t).isTimerRunning = false ∧
    (handleMove R s f t).game.pos = p2 ∧
    ∀ f2 t2, handleMove R (handleMove R s f t) f2 t2 = handleMove R s f t := by
  have hs := handleMove_success R s hmv
  have hpos : (handleMove R s f t).game.pos = p2 := by rw [hs]
  refine ⟨?_, hpos, ?_⟩
  · rw [hs]; simp [hgo]
  · intro f2 t2
    exact handleMove_failure R _ (by rw [hpos]; exact hrej f2 t2)

theorem gameOver_stops_clock_witness :
    oneMoveRules.isGameOver [mv1] = true ∧
    (handleMove oneMoveRules { initialGameState oneMoveRules with isTimerRunning := true }
        "e2" "e4").isTimerRunning = false ∧
    handleMove oneMoveRules
        (handleMove oneMoveRules { initialGameState oneMoveRules with isTimerRunning := true }
          "e2" "e4") "g1" "f3" =
      handleMove oneMoveRules { initialGameState oneMoveRules with isTimerRunning := true }
        "e2" "e4" := by
  have h := gameOver_stops_clock oneMoveRules
    { initialGameState oneMoveRules with isTimerRunning := true } "e2" "e4" mv1 [mv1]
    (by decide) (by decide) (fun f2 t2 => rfl)
  exact ⟨by decide, h.1, h.2.2 "g1" "f3"⟩

/-- Claim C8: `undoMove` never touches the clock — both remaining times, the
increment and the running flag survive unchanged, whether or not a move was
undone. -/
theorem undoMove_preserves_clock (R : Rules Pos) (s : GameState Pos) :
    (undoMove R s).timeControl = s.timeControl ∧
    (undoMove R s).isTimerRunning = s.isTimerRunning := by
  unfold undoMove
  split <;> exact ⟨rfl, rfl⟩

/-- Claim C9: a missing or unparsable persisted record (absent key, JSON
parse failure, or PGN load failure) makes session creation fall back to the
fresh session — empty move list, full clocks, default flags and theme — and
the initializer is total, so it cannot crash. -/
theorem loadGameState_fallback (R : Rules Pos) (parseJson : String → Option SavedData)
    (savedGame : Option String)
    (hbad : savedGame = none ∨
      ∃ str, savedGame = some str ∧
        (parseJson str = none ∨
          ∃ d, parseJson str = some d ∧ R.loadPgn d.pgn = none)) :
    loadGameState R parseJson savedGame = initialGameState R ∧
    (loadGameState R parseJson savedGame).gameHistory = [] ∧
    (loadGameState R parseJson savedGame).capturedPieces = { white := [], black := [] } ∧
    (loadGameState R parseJson savedGame).lastMove = none ∧
    (loadGameState R parseJson savedGame).timeControl = initialTimeControl ∧
    (loadGameState R parseJson savedGame).isFlipped = false ∧
    (loadGameState R parseJson savedGame).soundEnabled = true ∧
    (loadGameState R parseJson savedGame).boardTheme = "classic" ∧
    (loadGameState R parseJson savedGame).isTimerRunning = false := by
  have hmain : loadGameState R parseJson savedGame = initialGameState R := by
    rcases hbad with h | ⟨str, hstr, h⟩
    · subst h; rfl
    · rcases h with h | ⟨d, hd, hpgn⟩
      · subst hstr
        simp only [loadGameState, h]
      · subst hstr
        simp only [loadGameState, hd, hpgn]
  rw [hmain]
  exact ⟨rfl, rfl, rfl, rfl, rfl, rfl, rfl, rfl, rfl⟩

theorem loadGameState_fallback_witness :
    loadGameState testRules (fun _ => none) (some "garbage") = initialGameState testRules ∧
    loadGameState testRules (fun _ => none) none = initialGameState testRules :=
  ⟨(loadGameState_fallback testRules (fun _ => none) (some "garbage")
      (Or.inr ⟨"garbage", rfl, Or.inl rfl⟩)).1,
   (loadGameState_fallback testRules (fun _ => none) none (Or.inl rfl)).1⟩

/-- Claim C10: the settings intents — flip orientation, toggle sound, set
board theme — each replace exactly their own field, leaving the game, the
move history, the captured pieces, `lastMove`, the selection and the whole
clock state unchanged. -/
theorem settings_frame (s : GameState Pos) (theme : String) :
    ((flipBoard s).game = s.game ∧ (flipBoard s).gameHistory = s.gameHistory ∧
     (flipBoard s).capturedPieces = s.capturedPieces ∧ (flipBoard s).lastMove = s.lastMove ∧
     (flipBoard s).selectedSquare = s.selectedSquare ∧ (flipBoard s).legalMoves = s.legalMoves ∧
     (flipBoard s).timeControl = s.timeControl ∧
     (flipBoard s).isTimerRunning = s.isTimerRunning ∧
     (flipBoard s).soundEnabled = s.soundEnabled ∧ (flipBoard s).boardTheme = s.boardTheme ∧
     (flipBoard s).isFlipped = !s.isFlipped) ∧
    ((toggleSound s).game = s.game ∧ (toggleSound s).gameHistory = s.gameHistory ∧
     (toggleSound s).capturedPieces = s.capturedPieces ∧ (toggleSound s).lastMove = s.lastMove ∧
     (toggleSound s).selectedSquare = s.selectedSquare ∧
     (toggleSound s).legalMoves = s.legalMoves ∧
     (toggleSound s).timeControl = s.timeControl ∧
     (toggleSound s).isTimerRunning = s.isTimerRunning ∧
     (toggleSound s).isFlipped = s.isFlipped ∧ (toggleSound s).boardTheme = s.boardTheme ∧
     (toggleSound s).soundEnabled = !s.soundEnabled) ∧
    ((updateBoardTheme theme s).game = s.game ∧
     (updateBoardTheme theme s).gameHistory = s.gameHistory ∧
     (updateBoardTheme theme s).capturedPieces = s.capturedPieces ∧
     (updateBoardTheme theme s).lastMove = s.lastMove ∧
     (updateBoardTheme theme s).selectedSquare = s.selectedSquare ∧
     (updateBoardTheme theme s).legalMoves = s.legalMoves ∧
     (updateBoardTheme theme s).timeControl = s.timeControl ∧
     (updateBoardTheme theme s).isTimerRunning = s.isTimerRunning ∧
     (updateBoardTheme theme s).isFlipped = s.isFlipped ∧
     (updateBoardTheme theme s).soundEnabled = s.soundEnabled ∧
     (updateBoardTheme theme s).boardTheme = theme) :=
  ⟨⟨rfl, rfl, rfl, rfl, rfl, rfl, rfl, rfl, rfl, rfl, rfl⟩,
   ⟨rfl, rfl, rfl, rfl, rfl, rfl, rfl, rfl, rfl, rfl, rfl⟩,
   ⟨rfl, rfl, rfl, rfl, rfl, rfl, rfl, rfl, rfl, rfl, rfl⟩⟩

/-- Claim C1: `resetGame` builds the fresh session from the snapshot its
memoized `useCallback` closure captured, and the dependency array omits
`boardTheme`.  Here the user has changed the theme from `"classic"` to
`"wood"` (the current session) while the captured snapshot still carries
`"classic"` and agrees with the current session on every tracked dependency,
so the memoized callback survives: reset then yields `boardTheme =
"classic"`, not the pre-reset value `"wood"`.  The remaining reset contract
(fresh game, empty history and buckets, `initialTimeControl`, timer forced
off, `isFlipped` and `soundEnabled` preserved) does hold at this input. -/
theorem resetGame_stale_boardTheme :
    resetDepsAgree (initialGameState testRules)
      (updateBoardTheme "wood" (initialGameState testRules)) ∧
    (updateBoardTheme "wood" (initialGameState testRules)).boardTheme = "wood" ∧
    (resetGame testRules (initialGameState testRules)).boardTheme = "classic" ∧
    (resetGame testRules (initialGameState testRules)).boardTheme ≠
      (updateBoardTheme "wood" (initialGameState testRules)).boardTheme ∧
    (resetGame testRules (initialGameState testRules)).game = chessNew testRules ∧
    (resetGame testRules (initialGameState testRules)).gameHistory = [] ∧
    (resetGame testRules (initialGameState testRules)).capturedPieces =
      { white := [], black := [] } ∧
    (resetGame testRules (initialGameState testRules)).lastMove = none ∧
    (resetGame testRules (initialGameState testRules)).selectedSquare = none ∧
    (resetGame testRules (initialGameState testRules)).timeControl = initialTimeControl ∧
    (resetGame testRules (initialGameState testRules)).isTimerRunning = false ∧
    (resetGame testRules (initialGameState testRules)).isFlipped =
      (updateBoardTheme "wood" (initialGameState testRules)).isFlipped ∧
    (resetGame testRules (initialGameState testRules)).soundEnabled =
      (updateBoardTheme "wood" (initialGameState testRules)).soundEnabled :=
  ⟨⟨rfl, rfl⟩, rfl, rfl, by decide, rfl, rfl, rfl, rfl, rfl, rfl, rfl, rfl, rfl⟩

end ChessMaster
